import Mathlib

/-!
Verification development for the browserslist-useragent matcher
(src/index.js).

The program resolves a User-Agent string to a canonical
(family, version) pair and decides whether any target produced by the
browserslist query engine matches it under a configurable
version-comparison policy.

Shallow embedding notes.
* JavaScript strings are Lean strings; the handful of string
  primitives the source uses (split on a single character,
  toLowerCase, includes, truthiness) are modelled explicitly below so
  that every definition reduces in the kernel.
* The three external collaborators (the browserslist query engine, the
  ua-parser-js tokenizer, and the npm semver comparator) are not part
  of this repository.  The first two are consumed as oracles: the
  functions below take the query engine's token list and the
  tokenizer's parsed record as inputs, exactly as the source consumes
  their return values.  The semver comparator is modelled from its
  contract in the specification (strict parse, validity check,
  increment-by-component, greater-or-equal, and a satisfies predicate
  over exact, tilde and caret reference ranges), restricted to
  numeric three-component versions: pre-release tags, x-ranges and
  compound range syntax of the real library are outside that contract
  and are not modelled.  Where the real comparator throws
  (for instance gte on an invalid version) the model returns none.
* Numbers are Nat/Int; JavaScript number limits are irrelevant at the
  magnitudes involved.
-/

namespace BrowserslistUA

/-! ## JavaScript string primitives -/

/-- JS String.prototype.split with a single-character separator:
splitting the empty string yields one empty field, adjacent separators
yield empty fields. -/
def jsSplit (sep : Char) (s : String) : List String :=
  (s.data.foldr
    (fun c acc =>
      if c == sep then [] :: acc
      else
        match acc with
        | g :: gs => (c :: g) :: gs
        | [] => [[c]])
    [[]]).map (fun l => ⟨l⟩)

/-- JS toLowerCase / toLocaleLowerCase; all family names in the program
are ASCII, where the two coincide with per-character lowering. -/
def jsToLower (s : String) : String := ⟨s.data.map Char.toLower⟩

/-- Whether the first list is a prefix of the second. -/
def isPrefixList : List Char → List Char → Bool
  | [], _ => true
  | _ :: _, [] => false
  | a :: as, b :: bs => a == b && isPrefixList as bs

/-- Whether the first list occurs contiguously inside the second. -/
def containsSub (sub : List Char) : List Char → Bool
  | [] => sub.isEmpty
  | x :: xs => isPrefixList sub (x :: xs) || containsSub sub xs

/-- JS String.prototype.includes: substring containment. -/
def jsIncludes (s sub : String) : Bool := containsSub sub.data s.data

/-- Truthiness of a possibly-undefined JS string: undefined and the
empty string are falsy. -/
def jsTruthy : Option String → Bool
  | none => false
  | some s => s != ""

/-- JS a || b on possibly-undefined strings. -/
def jsOr (a b : Option String) : Option String :=
  if jsTruthy a then a else b

/-- JS String.prototype.indexOf for a single character: index of the
first occurrence, none when absent (JS returns -1). -/
def jsIndexOfChar (c : Char) : List Char → Option Nat
  | [] => none
  | x :: xs => if x == c then some 0 else (jsIndexOfChar c xs).map (· + 1)

/-! ## JS parseInt (radix unspecified) -/

/-- Decimal digit value. -/
def decDigit? (c : Char) : Option Nat :=
  if c.isDigit then some (c.toNat - 48) else none

/-- Hexadecimal digit value. -/
def hexDigit? (c : Char) : Option Nat :=
  if c.isDigit then some (c.toNat - 48)
  else if 'a' ≤ c ∧ c ≤ 'f' then some (c.toNat - 87)
  else if 'A' ≤ c ∧ c ≤ 'F' then some (c.toNat - 55)
  else none

/-- Value of a digit run in the given base. -/
def digitsValue (base : Nat) (f : Char → Option Nat) (cs : List Char) : Nat :=
  cs.foldl (fun a c => base * a + (f c).getD 0) 0

/-- JS parseInt(value) with no radix argument: skip leading
whitespace, read an optional sign, then the longest prefix of decimal
digits — or of hexadecimal digits after a 0x/0X prefix — and return
NaN (here none) when no digit follows. -/
def parseIntJS (s : String) : Option Int :=
  let cs := s.data.dropWhile (fun c => c.isWhitespace)
  let signBody : Int × List Char :=
    match cs with
    | '-' :: rest => (-1, rest)
    | '+' :: rest => (1, rest)
    | _ => (1, cs)
  let sign := signBody.1
  let body := signBody.2
  match body with
  | '0' :: x :: rest =>
    if x == 'x' || x == 'X' then
      let ds := rest.takeWhile (fun c => (hexDigit? c).isSome)
      if ds.isEmpty then none
      else some (sign * (digitsValue 16 hexDigit? ds : Nat))
    else
      some (sign * (digitsValue 10 decDigit? (body.takeWhile Char.isDigit) : Nat))
  | _ =>
    let ds := body.takeWhile Char.isDigit
    if ds.isEmpty then none
    else some (sign * (digitsValue 10 decDigit? ds : Nat))

/-! ## Version normalizer (src/index.js lines 26-35) -/

/-- parseNumber: parseInt the component, 0 when the component is falsy
or the parse yields NaN. -/
def parseNumber (value : String) : Int :=
  if value = "" then 0
  else
    match parseIntJS value with
    | none => 0
    | some n => n

/-- A destructured component: an absent component defaults to the
number 0 in the source, and parseNumber(0) is 0, the same value
parseNumber gives the empty string. -/
def parseNumberOpt : Option String → Int
  | none => 0
  | some s => parseNumber s

/-- getNormalizedVersion: split on dots, keep at most three
components, parse each with parseNumber and re-join with dots. -/
def getNormalizedVersion (version : String) : String :=
  let parts := (jsSplit '.' version).take 3
  String.intercalate "."
    [toString (parseNumberOpt parts[0]?),
     toString (parseNumberOpt parts[1]?),
     toString (parseNumberOpt parts[2]?)]

/-- getNormalizedVersion applied to a possibly-undefined version: the
source's default parameter turns undefined into "0.0.0", which
normalizes to itself, as does the empty string. -/
def getNormalizedVersionOpt (v : Option String) : String :=
  getNormalizedVersion (v.getD "0.0.0")

/-! ## Semantic-version comparator (external collaborator) -/

/-- A parsed numeric semantic version. -/
structure V3 where
  major : Nat
  minor : Nat
  patch : Nat
deriving DecidableEq, Repr

/-- Canonical rendering, as semver's .version / inc return it. -/
def verString (v : V3) : String :=
  toString v.major ++ "." ++ toString v.minor ++ "." ++ toString v.patch

/-- Strict semver precedence: compare major, then minor, then patch,
numerically. -/
def vLt (a b : V3) : Bool :=
  a.major < b.major ||
    (a.major == b.major &&
      (a.minor < b.minor || (a.minor == b.minor && a.patch < b.patch)))

/-- semver.gte: total order, so gte is the negation of lt. -/
def vGte (a b : V3) : Bool := !(vLt a b)

/-- A numeric version component: a non-empty digit run; in strict
mode a leading zero is only allowed on the single digit 0. -/
def parseComponent (allowLeadingZero : Bool) (cs : List Char) : Option Nat :=
  if cs.isEmpty then none
  else if cs.all Char.isDigit then
    if !allowLeadingZero && cs.head? == some '0' && cs.length > 1 then none
    else some (digitsValue 10 decDigit? cs)
  else none

/-- Strict semver parse of a numeric version: exactly three
dot-separated components with no leading zeros and no prefix. -/
def semverParseStrict (s : String) : Option V3 :=
  match jsSplit '.' s with
  | [a, b, c] =>
    match parseComponent false a.data, parseComponent false b.data,
        parseComponent false c.data with
    | some ma, some mi, some pa => some ⟨ma, mi, pa⟩
    | _, _, _ => none
  | _ => none

/-- Loose semver parse (semver.valid with loose: true) of a numeric
version: leading v, = and whitespace characters are tolerated and
leading zeros are allowed. -/
def semverParseLoose (s : String) : Option V3 :=
  let body : String :=
    ⟨s.data.dropWhile (fun c => c == 'v' || c == '=' || c.isWhitespace)⟩
  match jsSplit '.' body with
  | [a, b, c] =>
    match parseComponent true a.data, parseComponent true b.data,
        parseComponent true c.data with
    | some ma, some mi, some pa => some ⟨ma, mi, pa⟩
    | _, _, _ => none
  | _ => none

/-- semverify (src/index.js lines 151-166): a loosely valid semver
string is canonicalized through the semver parser; anything else is
split on dots and padded with "0" components up to length three. -/
def semverify (version : String) : String :=
  match semverParseLoose version with
  | some v => verString v
  | none =>
    let split := jsSplit '.' version
    String.intercalate "." (split ++ List.replicate (3 - split.length) "0")

/-- semver.inc(v, 'minor') on a version without pre-release tags:
bump the minor component and reset the patch to zero. -/
def incMinor (v : V3) : V3 := ⟨v.major, v.minor + 1, 0⟩

/-- The reference-range shapes the program builds: a plain version
(exact match), a tilde range, or a caret range. -/
inductive RangeKind where
  | exact : RangeKind
  | tilde : RangeKind
  | caret : RangeKind
deriving DecidableEq, Repr

/-- Parse a reference range: an optional single ~ or ^ operator
followed by a strict version. -/
def parseSimpleRange (s : String) : Option (RangeKind × V3) :=
  match s.data with
  | '~' :: rest => (semverParseStrict ⟨rest⟩).map (fun v => (RangeKind.tilde, v))
  | '^' :: rest => (semverParseStrict ⟨rest⟩).map (fun v => (RangeKind.caret, v))
  | _ => (semverParseStrict s).map (fun v => (RangeKind.exact, v))

/-- Exclusive upper bound of a caret range: next major for a positive
major, next minor for 0.x, next patch for 0.0.x. -/
def caretUpper (b : V3) : V3 :=
  if b.major > 0 then ⟨b.major + 1, 0, 0⟩
  else if b.minor > 0 then ⟨0, b.minor + 1, 0⟩
  else ⟨0, 0, b.patch + 1⟩

/-- Membership of a version in a reference range. -/
def rangeTest : RangeKind × V3 → V3 → Bool
  | (RangeKind.exact, b), v => v == b
  | (RangeKind.tilde, b), v => vGte v b && vLt v ⟨b.major, b.minor + 1, 0⟩
  | (RangeKind.caret, b), v => vGte v b && vLt v (caretUpper b)

/-- semver.satisfies: false — never an exception — when either the
range or the version fails to parse. -/
def satisfiesRange (version range : String) : Bool :=
  match parseSimpleRange range with
  | none => false
  | some r =>
    match semverParseStrict version with
    | none => false
    | some v => rangeTest r v

/-! ## User-Agent resolver (src/index.js lines 37-147)

The tokenizer (ua-parser-js) is external: resolveUserAgent below is
the disambiguation chain applied to its output record, i.e. the source
from the UAParser call onward.  The pre-strip of CriOS/OPiOS,
YaBrowser and Facebook markers happens on the raw string before
tokenization and is absorbed into the oracle: the claims below
quantify over the post-strip tokenizer report. -/

/-- One name/version record of the tokenizer output; either field may
be absent. -/
structure NameVersion where
  name : Option String
  version : Option String
deriving DecidableEq, Repr

/-- The tokenizer output consumed by the resolver. -/
structure ParsedUA where
  browser : NameVersion
  os : NameVersion
  engine : NameVersion
deriving DecidableEq, Repr

/-- The resolved (family, version) pair. -/
structure ResolvedBrowser where
  family : String
  version : String
deriving DecidableEq, Repr

/-- The ordered disambiguation chain of resolveUserAgent: sentinel for
a missing browser name, the two iOS rules, the Chrome-variant,
Samsung, Firefox Mobile, IE, IEMobile, Blink-on-Android and
Android Browser overrides, then the identity default. -/
def resolveUserAgent (parsedUA : ParsedUA) : ResolvedBrowser :=
  if !(jsTruthy parsedUA.browser.name) then
    ⟨"", "0.0.0"⟩
  else
    let name := parsedUA.browser.name.getD ""
    if jsIncludes name "Safari" && parsedUA.os.name == some "iOS" then
      ⟨"iOS", getNormalizedVersionOpt (jsOr parsedUA.browser.version parsedUA.os.version)⟩
    else if parsedUA.os.name == some "iOS" then
      ⟨"iOS", getNormalizedVersionOpt parsedUA.os.version⟩
    else
      let version := getNormalizedVersionOpt parsedUA.browser.version
      if jsIncludes name "Chrome Mobile" || jsIncludes name "Chrome WebView" ||
          jsIncludes name "Chromium" || jsIncludes name "Chrome Headless" then
        ⟨"Chrome", version⟩
      else if name == "Samsung Browser" then ⟨"Samsung", version⟩
      else if name == "Firefox Mobile" then ⟨"Firefox", version⟩
      else if name == "IE" then ⟨"Explorer", version⟩
      else if name == "IEMobile" then ⟨"ExplorerMobile", version⟩
      else if parsedUA.engine.name == some "Blink" && parsedUA.os.name == some "Android" then
        ⟨"Chrome", getNormalizedVersionOpt parsedUA.engine.version⟩
      else if name == "Android Browser" then
        ⟨"Android", getNormalizedVersionOpt parsedUA.os.version⟩
      else ⟨name, version⟩

/-! ## Range expander (src/index.js lines 175-188)

The source loop is

  while (semver.gte(endSemver, curVersion)) \x7b
    versionsInRange.push(curVersion)
    curVersion = semver.inc(curVersion, 'minor')
  \x7d

It checks the guard before the first push, and when the end version's
major exceeds the start's the guard never turns false, so the loop
does not terminate.  genLoop is the loop with a fuel parameter;
generateSemversInRange supplies fuel that is provably sufficient
whenever the loop terminates (the majors are equal, or the guard fails
at once), so a none result models a run that throws (an unparseable
version reaching semver.gte) or never returns. -/

/-- The while loop over parsed versions, with fuel. -/
def genLoop (e : V3) : Nat → V3 → Option (List V3)
  | 0, cur => if vGte e cur then none else some []
  | fuel + 1, cur =>
    if vGte e cur then (genLoop e fuel (incMinor cur)).map (cur :: ·)
    else some []

/-- generateSemversInRange: split the token on hyphens, semverify the
first two pieces, and run the loop.  The first emitted string is the
semverified start verbatim; every later one is an inc output, i.e. a
canonical rendering. -/
def generateSemversInRange (versionRange : String) : Option (List String) :=
  match jsSplit '-' versionRange with
  | start :: endPart :: _ =>
    let startSemver := semverify start
    let endSemver := semverify endPart
    match semverParseStrict startSemver, semverParseStrict endSemver with
    | some s, some e =>
      match genLoop e (e.minor + 2 - s.minor) s with
      | none => none
      | some [] => some []
      | some (_ :: rest) => some (startSemver :: rest.map verString)
    | _, _ => none
  | _ => none

/-! ## Browser list parser (src/index.js lines 10-24, 168-172, 202-235) -/

/-- The alias table mapping query-engine short codes to canonical
family names. -/
def browserNameMap : List (String × String) :=
  [("bb", "BlackBerry"), ("and_chr", "Chrome"), ("ChromeAndroid", "Chrome"),
   ("FirefoxAndroid", "Firefox"), ("ff", "Firefox"), ("ie_mob", "ExplorerMobile"),
   ("ie", "Explorer"), ("and_ff", "Firefox"), ("ios_saf", "iOS"),
   ("op_mini", "OperaMini"), ("op_mob", "OperaMobile"), ("and_qq", "QQAndroid"),
   ("and_uc", "UCAndroid")]

/-- One (family, version) target. -/
structure BrowserTarget where
  family : String
  version : String
deriving DecidableEq, Repr

/-- version.indexOf('-') > 0: a hyphen occurs at a position after the
first character. -/
def hyphenAfterFirst (version : String) : Bool :=
  match jsIndexOfChar '-' version.data with
  | some i => decide (0 < i)
  | none => false

/-- parseBrowsersList: split each token on the space, drop TP
versions, canonicalize the name through the alias table, and expand
hyphenated ranges.  A token without a version field makes the source
dereference undefined (none here); a range whose expansion throws or
never returns propagates none. -/
def parseBrowsersList (browsersList : List String) : Option (List BrowserTarget) := do
  let split := browsersList.map (fun browser =>
    let parts := jsSplit ' ' browser
    (parts.headD "", parts[1]?))
  let filtered := split.filter (fun b => b.2 != some "TP")
  let mapped ← filtered.mapM (fun b =>
    let normalizedName := (browserNameMap.lookup b.1).getD b.1
    match b.2 with
    | none => none
    | some version =>
      if hyphenAfterFirst version then
        (generateSemversInRange version).map
          (fun vs => vs.map (fun v => BrowserTarget.mk normalizedName v))
      else some [BrowserTarget.mk normalizedName version])
  some mapped.flatten

/-! ## Comparison options and match engine (src/index.js lines 237-282) -/

/-- Caller-supplied options: absent fields are none. -/
structure Opts where
  ignoreMinor : Option Bool
  ignorePatch : Option Bool
  allowHigherVersions : Option Bool
deriving DecidableEq, Repr

/-- Options after the merge with the defaults. -/
structure MergedOptions where
  ignoreMinor : Bool
  ignorePatch : Bool
  allowHigherVersions : Bool
deriving DecidableEq, Repr

/-- The object spread \x7b ignoreMinor: false, ignorePatch: true,
...opts \x7d: a key present in opts wins; allowHigherVersions has no
default and an absent one is falsy. -/
def mergeOptions (opts : Opts) : MergedOptions :=
  ⟨opts.ignoreMinor.getD false, opts.ignorePatch.getD true,
    opts.allowHigherVersions.getD false⟩

/-- compareBrowserSemvers: semverify both sides, derive the reference
range (tilde under ignorePatch, overwritten by caret under
ignoreMinor), then gte under allowHigherVersions — which throws, i.e.
none, on an unparseable side — and satisfies otherwise. -/
def compareBrowserSemvers (versionA versionB : String) (options : MergedOptions) :
    Option Bool :=
  let semverifiedA := semverify versionA
  let semverifiedB := semverify versionB
  let ref0 := semverifiedB
  let ref1 := if options.ignorePatch then "~" ++ semverifiedB else ref0
  let referenceVersion := if options.ignoreMinor then "^" ++ semverifiedB else ref1
  if options.allowHigherVersions then
    match semverParseStrict semverifiedA, semverParseStrict semverifiedB with
    | some a, some b => some (vGte a b)
    | _, _ => none
  else some (satisfiesRange semverifiedA referenceVersion)

/-- The some-callback of matchesUA (src/index.js lines 276-281):
first target whose lowercased family equals the resolved one and
whose version comparison succeeds; the && short-circuit means the
comparison only runs, and can only throw, on a family match. -/
def matchesTargets (parsedBrowsers : List BrowserTarget)
    (resolvedUserAgent : ResolvedBrowser) (options : MergedOptions) : Option Bool :=
  match parsedBrowsers with
  | [] => some false
  | browser :: rest =>
    if jsToLower browser.family == jsToLower resolvedUserAgent.family then
      match compareBrowserSemvers resolvedUserAgent.version browser.version options with
      | none => none
      | some true => some true
      | some false => matchesTargets rest resolvedUserAgent options
    else matchesTargets rest resolvedUserAgent options

/-- matchesUA over the query engine's token list and the tokenizer
report: parse the targets, resolve the user agent, merge the options,
and search the targets. -/
def matchesUA (browsers : List String) (parsedUA : ParsedUA) (opts : Opts) :
    Option Bool :=
  match parseBrowsersList browsers with
  | none => none
  | some parsedBrowsers =>
    matchesTargets parsedBrowsers (resolveUserAgent parsedUA) (mergeOptions opts)

/-! ## Helper lemmas -/

/-- vLt unfolded to an arithmetic proposition. -/
lemma vLt_iff (a b : V3) : vLt a b = true ↔
    (a.major < b.major ∨ (a.major = b.major ∧
      (a.minor < b.minor ∨ (a.minor = b.minor ∧ a.patch < b.patch)))) := by
  simp [vLt]

/-- vGte is the boolean negation of vLt. -/
lemma vGte_eq_true_iff (a b : V3) : vGte a b = true ↔ vLt a b = false := by
  simp [vGte]

/-- vGte unfolded to an arithmetic proposition. -/
lemma vGte_iff (a b : V3) : vGte a b = true ↔
    (b.major < a.major ∨ (b.major = a.major ∧
      (b.minor < a.minor ∨ (b.minor = a.minor ∧ b.patch ≤ a.patch)))) := by
  constructor
  · intro h
    have hlt : vLt a b = false := by rwa [vGte_eq_true_iff] at h
    have hn : ¬ (vLt a b = true) := by rw [hlt]; exact Bool.false_ne_true
    rw [vLt_iff] at hn
    omega
  · intro h
    rw [vGte_eq_true_iff]
    cases hq : vLt a b with
    | false => rfl
    | true => exfalso; rw [vLt_iff] at hq; omega

/-- A false loop guard returns the empty list whatever the fuel. -/
lemma genLoop_guard_false (e cur : V3) (h : vGte e cur = false) (fuel : Nat) :
    genLoop e fuel cur = some [] := by
  cases fuel <;> simp [genLoop, h]

/-- Each minor increment strictly increases the version. -/
lemma vLt_incMinor (cur : V3) : vLt cur (incMinor cur) = true := by
  rw [vLt_iff]; simp [incMinor]

/-- When the current major is below the end major the guard never
fails, so the loop exhausts any fuel: the source loop diverges. -/
lemma genLoop_cross_major (e : V3) (fuel : Nat) : ∀ cur : V3, cur.major < e.major →
    genLoop e fuel cur = none := by
  induction fuel with
  | zero =>
    intro cur h
    have hg : vGte e cur = true := by rw [vGte_iff]; omega
    simp [genLoop, hg]
  | succ fuel ih =>
    intro cur h
    have hg : vGte e cur = true := by rw [vGte_iff]; omega
    have hrec := ih (incMinor cur) (by simp [incMinor]; omega)
    simp [genLoop, hg, hrec]

/-- The loop with equal majors and enough fuel: it returns a list that
is headed by the start version when the guard holds, empty otherwise,
strictly increasing, and bounded by the end version. -/
lemma genLoop_spec (fuel : Nat) : ∀ (e cur : V3), cur.major = e.major →
    e.minor + 1 - cur.minor ≤ fuel →
    ∃ l, genLoop e fuel cur = some l ∧
      (vGte e cur = true → l.head? = some cur) ∧
      (vGte e cur = false → l = []) ∧
      List.Chain' (fun x y => vLt x y = true) l ∧
      (∀ x ∈ l, vGte e x = true) := by
  induction fuel with
  | zero =>
    intro e cur hmaj hf
    have hg : vGte e cur = false := by
      rw [← Bool.not_eq_true, vGte_iff]; omega
    refine ⟨[], genLoop_guard_false e cur hg 0, ?_, fun _ => rfl, by simp, by simp⟩
    intro hc; simp [hg] at hc
  | succ fuel ih =>
    intro e cur hmaj hf
    cases hg : vGte e cur with
    | false =>
      refine ⟨[], genLoop_guard_false e cur hg (fuel + 1), ?_, fun _ => rfl, by simp, by simp⟩
      intro hc; simp [hg] at hc
    | true =>
      have hle : cur.minor ≤ e.minor := by
        rw [vGte_iff] at hg; omega
      obtain ⟨l', hl', hhead', hempty', hchain', hall'⟩ :=
        ih e (incMinor cur) (by simp [incMinor, hmaj]) (by simp [incMinor]; omega)
      refine ⟨cur :: l', ?_, fun _ => rfl, ?_, ?_, ?_⟩
      · simp [genLoop, hg, hl']
      · intro hc; cases hc
      · rw [List.chain'_cons']
        refine ⟨?_, hchain'⟩
        intro y hy
        cases hg' : vGte e (incMinor cur) with
        | true =>
          have := hhead' hg'
          rw [this] at hy
          cases hy
          exact vLt_incMinor cur
        | false =>
          rw [hempty' hg'] at hy
          cases hy
      · intro x hx
        rcases List.mem_cons.mp hx with rfl | hx
        · exact hg
        · exact hall' x hx

/-! ## Claim C1 — range with end below start -/

/-- C1, as stated, is false: for the token "10.2-10.0" the normalized
end 10.0.0 is strictly below the normalized start 10.2.0, and the
expander returns the empty sequence, not the one-element sequence
holding the normalized start — the loop guard runs before the first
emission. -/
theorem c1_counterexample :
    semverParseStrict (semverify "10.2") = some ⟨10, 2, 0⟩ ∧
    semverParseStrict (semverify "10.0") = some ⟨10, 0, 0⟩ ∧
    vLt ⟨10, 0, 0⟩ ⟨10, 2, 0⟩ = true ∧
    generateSemversInRange "10.2-10.0" = some [] ∧
    generateSemversInRange "10.2-10.0" ≠ some [semverify "10.2"] := by
  decide

/-- C1 amended: for every range token whose normalized end version is
strictly below the normalized start version, the range expander
returns the empty sequence — it emits nothing and it does not loop,
because the comparator runs before the first emission. -/
theorem c1_end_below_start_empty (versionRange a b : String) (rest : List String)
    (s e : V3)
    (hsplit : jsSplit '-' versionRange = a :: b :: rest)
    (hs : semverParseStrict (semverify a) = some s)
    (he : semverParseStrict (semverify b) = some e)
    (hlt : vLt e s = true) :
    generateSemversInRange versionRange = some [] := by
  have hg : vGte e s = false := by
    cases hq : vGte e s with
    | false => rfl
    | true => exfalso; rw [vGte_eq_true_iff] at hq; rw [hq] at hlt; cases hlt
  unfold generateSemversInRange
  rw [hsplit]
  simp only [hs, he, genLoop_guard_false e s hg]

/-- Witness for C1 amended at the concrete token "10.2-10.0". -/
theorem c1_end_below_start_empty_witness :
    generateSemversInRange "10.2-10.0" = some [] :=
  c1_end_below_start_empty "10.2-10.0" "10.2" "10.0" [] ⟨10, 2, 0⟩ ⟨10, 0, 0⟩
    (by decide) (by decide) (by decide) (by decide)

/-! ## Claim C2 — normalization totality -/

/-- C2, as stated, is false: the comparator-side normalizer semverify
maps "1.2.3.4" to a four-component string, and the resolver-side
getNormalizedVersion maps "-5" to "-5.0.0", whose first component is
a negative integer. -/
theorem c2_counterexample :
    (jsSplit '.' (semverify "1.2.3.4")).length = 4 ∧
    getNormalizedVersion "-5" = "-5.0.0" := by
  decide

/-- C2 amended: getNormalizedVersion, for every string input, returns
three integer components joined by dots (an integer may be negative
when the component text carries a minus sign) and never raises; a
component that is empty, absent, or fails to parse as an integer
becomes 0.  semverify gives no such guarantee. -/
theorem c2_normalize_total (version : String) :
    (∃ x y z : Int, getNormalizedVersion version =
      String.intercalate "." [toString x, toString y, toString z]) ∧
    (∀ comp : String, parseIntJS comp = none → parseNumber comp = 0) ∧
    parseNumber "" = 0 ∧ parseNumberOpt none = 0 := by
  refine ⟨⟨parseNumberOpt ((jsSplit '.' version).take 3)[0]?,
    parseNumberOpt ((jsSplit '.' version).take 3)[1]?,
    parseNumberOpt ((jsSplit '.' version).take 3)[2]?, rfl⟩, ?_, rfl, rfl⟩
  intro comp h
  by_cases hc : comp = "" <;> simp [parseNumber, hc, h]

/-- Witness for C2 amended on garbage input. -/
theorem c2_normalize_total_witness :
    (∃ x y z : Int, getNormalizedVersion "7.x1.9" =
      String.intercalate "." [toString x, toString y, toString z]) ∧
    parseNumber "zzz" = 0 :=
  ⟨(c2_normalize_total "7.x1.9").1, (c2_normalize_total "7.x1.9").2.1 "zzz" (by decide)⟩

/-! ## Claim C7 — range expansion monotonicity -/

/-- C7, as stated, is false: for the token "1.0-2.0" the normalized
start 1.0.0 is below the normalized end 2.0.0, yet the expander does
not yield a sequence at all — the guard compares full versions while
the step only increments the minor, so a range crossing a major
version never terminates (none models the diverging loop; both
versions parse, so no exception is involved). -/
theorem c7_counterexample :
    semverParseStrict (semverify "1.0") = some ⟨1, 0, 0⟩ ∧
    semverParseStrict (semverify "2.0") = some ⟨2, 0, 0⟩ ∧
    vGte ⟨2, 0, 0⟩ ⟨1, 0, 0⟩ = true ∧
    generateSemversInRange "1.0-2.0" = none := by
  decide

/-- C7 amended: for every range token "A-B" with normalize(A) ≤
normalize(B) and equal major components, the expander yields a
sequence whose first element is the semverified start, that ascends
strictly under semver ordering by minor increments, and in which no
element exceeds the normalized end. -/
theorem c7_range_monotone (versionRange a b : String) (rest : List String)
    (s e : V3)
    (hsplit : jsSplit '-' versionRange = a :: b :: rest)
    (hs : semverParseStrict (semverify a) = some s)
    (he : semverParseStrict (semverify b) = some e)
    (hle : vGte e s = true)
    (hmaj : s.major = e.major) :
    ∃ tl : List V3,
      generateSemversInRange versionRange = some (semverify a :: tl.map verString) ∧
      List.Chain' (fun x y => vLt x y = true) (s :: tl) ∧
      (∀ x ∈ s :: tl, vGte e x = true) := by
  obtain ⟨l, hl, hhead, hempty, hchain, hall⟩ :=
    genLoop_spec (e.minor + 2 - s.minor) e s hmaj (by omega)
  have hh := hhead hle
  cases l with
  | nil => simp at hh
  | cons hd tl =>
    have hhd : hd = s := by simpa using hh
    subst hhd
    refine ⟨tl, ?_, hchain, hall⟩
    unfold generateSemversInRange
    rw [hsplit]
    simp only [hs, he, hl]

/-- Witness for C7 amended at the concrete token "10.0-10.2". -/
theorem c7_range_monotone_witness :
    ∃ tl : List V3,
      generateSemversInRange "10.0-10.2" = some (semverify "10.0" :: tl.map verString) ∧
      List.Chain' (fun x y => vLt x y = true) (⟨10, 0, 0⟩ :: tl) ∧
      (∀ x ∈ (⟨10, 0, 0⟩ : V3) :: tl, vGte ⟨10, 2, 0⟩ x = true) :=
  c7_range_monotone "10.0-10.2" "10.0" "10.2" [] ⟨10, 0, 0⟩ ⟨10, 2, 0⟩
    (by decide) (by decide) (by decide) (by decide) (by decide)

/-! ## Range parsing helper lemmas -/

/-- A range string that does not open with a tilde or caret is parsed
as an exact reference version. -/
lemma parseSimpleRange_exact (s : String)
    (h1 : s.data.head? ≠ some '~') (h2 : s.data.head? ≠ some '^') :
    parseSimpleRange s = (semverParseStrict s).map (fun v => (RangeKind.exact, v)) := by
  unfold parseSimpleRange
  split
  · next rest heq => exact absurd (by rw [heq]; rfl) h1
  · next rest heq => exact absurd (by rw [heq]; rfl) h2
  · rfl

/-- Prefixing a caret parses as a caret range over the remainder. -/
lemma parseSimpleRange_caret (s : String) :
    parseSimpleRange ("^" ++ s) =
      (semverParseStrict s).map (fun v => (RangeKind.caret, v)) := by
  have hd : ("^" ++ s).data = '^' :: s.data := by rw [String.data_append]; rfl
  unfold parseSimpleRange
  rw [hd]
  rfl

/-! ## Claim C3 — caller options take precedence; exact matching -/

/-- C3, as stated, is false at one point: merged options do take the
caller's ignorePatch = false, but a target version whose semverified
form itself opens with a range operator is handed to the satisfies
predicate as a range, so candidate "1.2.5" matches target "~1.2.3"
even though their normalized forms differ. -/
theorem c3_counterexample :
    compareBrowserSemvers "1.2.5" "~1.2.3" (mergeOptions ⟨none, some false, none⟩) =
      some true ∧
    semverify "1.2.5" ≠ semverify "~1.2.3" := by
  decide

/-- C3 amended: caller-supplied options win over the defaults
ignorePatch = true and ignoreMinor = false, and under
ignorePatch = false with ignoreMinor and allowHigherVersions absent a
candidate matches a target exactly when both semverified forms parse
to the same version — provided the target's semverified form does not
itself open with a tilde or caret, in which case it acts as a range. -/
theorem c3_exact_match (A B : String)
    (h1 : (semverify B).data.head? ≠ some '~')
    (h2 : (semverify B).data.head? ≠ some '^') :
    (∀ (opts : Opts) (bv : Bool),
      (opts.ignorePatch = some bv → (mergeOptions opts).ignorePatch = bv) ∧
      (opts.ignoreMinor = some bv → (mergeOptions opts).ignoreMinor = bv) ∧
      (opts.allowHigherVersions = some bv → (mergeOptions opts).allowHigherVersions = bv)) ∧
    (compareBrowserSemvers A B (mergeOptions ⟨none, some false, none⟩) = some true ↔
      ∃ t : V3, semverParseStrict (semverify A) = some t ∧
        semverParseStrict (semverify B) = some t) := by
  constructor
  · intro opts bv
    refine ⟨?_, ?_, ?_⟩ <;> intro h <;> simp [mergeOptions, h]
  · show some (satisfiesRange (semverify A) (semverify B)) = some true ↔ _
    unfold satisfiesRange
    rw [parseSimpleRange_exact _ h1 h2]
    cases hPB : semverParseStrict (semverify B) with
    | none => simp
    | some tb =>
      cases hPA : semverParseStrict (semverify A) with
      | none => simp
      | some ta =>
        simp only [Option.map_some', Option.some.injEq, rangeTest, beq_iff_eq]
        constructor
        · intro h; exact ⟨tb, by rw [h], rfl⟩
        · rintro ⟨t, hA', hB'⟩
          cases hA'; cases hB'; rfl

/-- Witness for C3 amended: with ignorePatch = false an equal-version
pair matches and the caller's flag is in force. -/
theorem c3_exact_match_witness :
    compareBrowserSemvers "10.2.3" "10.2.3" (mergeOptions ⟨none, some false, none⟩) =
      some true :=
  ((c3_exact_match "10.2.3" "10.2.3" (by decide) (by decide)).2).mpr
    ⟨⟨10, 2, 3⟩, by decide, by decide⟩

/-! ## Claim C6 — allowHigherVersions -/

/-- C6: with allowHigherVersions set the comparison is exactly the
semver greater-or-equal test on the two semverified versions —
whatever ignorePatch and ignoreMinor say — and it returns true only
when both sides parse; in particular 12.0.0 qualifies against 10.0.0
exactly when the flag is set. -/
theorem c6_allow_higher :
    (∀ mo : MergedOptions, mo.allowHigherVersions = true → ∀ A B : String,
      (compareBrowserSemvers A B mo = some true ↔
        ∃ ta tb : V3, semverParseStrict (semverify A) = some ta ∧
          semverParseStrict (semverify B) = some tb ∧ vGte ta tb = true)) ∧
    (∀ im ip : Bool, compareBrowserSemvers "12.0.0" "10.0.0" ⟨im, ip, true⟩ = some true) ∧
    compareBrowserSemvers "12.0.0" "10.0.0" (mergeOptions ⟨none, none, none⟩) = some false ∧
    compareBrowserSemvers "12.0.0" "10.0.0" (mergeOptions ⟨none, none, some false⟩) =
      some false := by
  refine ⟨?_, by decide, by decide, by decide⟩
  intro mo hmo A B
  unfold compareBrowserSemvers
  rw [hmo]
  simp only [if_true]
  cases hA : semverParseStrict (semverify A) <;>
    cases hB : semverParseStrict (semverify B) <;> simp [hA, hB]

/-- Witness for C6 at 12.0.0 against 10.0.0 with the flag set. -/
theorem c6_allow_higher_witness :
    compareBrowserSemvers "12.0.0" "10.0.0" ⟨false, true, true⟩ = some true :=
  (c6_allow_higher.1 ⟨false, true, true⟩ rfl "12.0.0" "10.0.0").mpr
    ⟨⟨12, 0, 0⟩, ⟨10, 0, 0⟩, by decide, by decide, by decide⟩

/-! ## Claim C9 — ignoreMinor precedence over ignorePatch -/

/-- C9, as stated, is false: with both flags set, candidate 10.1.0
shares the major component of reference 10.2.0, yet the comparison
returns false — the caret range the code builds keeps the
greater-or-equal lower bound, it does not accept every minor. -/
theorem c9_counterexample :
    semverParseStrict (semverify "10.1.0") = some ⟨10, 1, 0⟩ ∧
    semverParseStrict (semverify "10.2.0") = some ⟨10, 2, 0⟩ ∧
    compareBrowserSemvers "10.1.0" "10.2.0" ⟨true, true, false⟩ = some false := by
  decide

/-- C9 amended: when both ignoreMinor and ignorePatch are set and
allowHigherVersions is not, the comparison behaves exactly as if only
ignoreMinor were set — the caret range overwrites the tilde range —
and, for a reference with a positive major component, the candidate
qualifies exactly when it shares the reference's major component and
is greater than or equal to the reference. -/
theorem c9_ignore_minor_precedence :
    (∀ A B : String,
      compareBrowserSemvers A B ⟨true, true, false⟩ =
        compareBrowserSemvers A B ⟨true, false, false⟩) ∧
    (∀ (A B : String) (ta tb : V3),
      semverParseStrict (semverify A) = some ta →
      semverParseStrict (semverify B) = some tb →
      0 < tb.major →
      (compareBrowserSemvers A B ⟨true, true, false⟩ = some true ↔
        (ta.major = tb.major ∧ vGte ta tb = true))) := by
  constructor
  · intro A B; rfl
  · intro A B ta tb hA hB hmaj
    show some (satisfiesRange (semverify A) ("^" ++ semverify B)) = some true ↔ _
    unfold satisfiesRange
    rw [parseSimpleRange_caret, hB, hA]
    have hcu : caretUpper tb = ⟨tb.major + 1, 0, 0⟩ := by
      unfold caretUpper; rw [if_pos hmaj]
    simp only [Option.map_some', Option.some.injEq, rangeTest, hcu,
      Bool.and_eq_true]
    constructor
    · rintro ⟨hg, hl⟩
      rw [vLt_iff] at hl
      rw [vGte_iff] at hg
      dsimp only at hl
      refine ⟨by omega, ?_⟩
      rw [vGte_iff]; omega
    · rintro ⟨hM, hg⟩
      refine ⟨hg, ?_⟩
      rw [vLt_iff]
      dsimp only
      omega

/-- Witness for C9 amended: both flags set, same major, candidate
above the reference. -/
theorem c9_ignore_minor_precedence_witness :
    compareBrowserSemvers "10.3.7" "10.2.0" ⟨true, true, false⟩ = some true :=
  (c9_ignore_minor_precedence.2 "10.3.7" "10.2.0" ⟨10, 3, 7⟩ ⟨10, 2, 0⟩
    (by decide) (by decide) (by decide)).mpr ⟨rfl, by decide⟩

/-! ## Claim C5 — iOS resolution -/

/-- C5: when the tokenizer reports a browser name on OS iOS, the
resolver returns family "iOS"; the version is the normalized browser
version with fallback to the normalized OS version when the browser
version is absent (or empty, which JS treats alike) if the name
contains "Safari", and the normalized OS version otherwise. -/
theorem c5_ios_resolution (pu : ParsedUA) (n : String)
    (hn : pu.browser.name = some n) (hne : n ≠ "")
    (hos : pu.os.name = some "iOS") :
    resolveUserAgent pu =
      if jsIncludes n "Safari" then
        ⟨"iOS", if jsTruthy pu.browser.version then
            getNormalizedVersionOpt pu.browser.version
          else getNormalizedVersionOpt pu.os.version⟩
      else ⟨"iOS", getNormalizedVersionOpt pu.os.version⟩ := by
  have ht : jsTruthy (some n) = true := by
    simp [jsTruthy, hne]
  by_cases hsaf : jsIncludes n "Safari" = true
  · simp [resolveUserAgent, ht, hn, hos, hsaf, jsOr, apply_ite getNormalizedVersionOpt]
  · have hsaf' : jsIncludes n "Safari" = false := by
      cases hq : jsIncludes n "Safari" with
      | false => rfl
      | true => exact absurd hq hsaf
    simp [resolveUserAgent, ht, hn, hos, hsaf']

/-- Witness for C5: Mobile Safari on iOS 13.3 with browser version
13.1 resolves to iOS 13.1.0. -/
theorem c5_ios_resolution_witness :
    resolveUserAgent ⟨⟨some "Mobile Safari", some "13.1"⟩, ⟨some "iOS", some "13.3"⟩,
      ⟨some "WebKit", some "605.1"⟩⟩ = ⟨"iOS", "13.1.0"⟩ := by
  have h := c5_ios_resolution
    ⟨⟨some "Mobile Safari", some "13.1"⟩, ⟨some "iOS", some "13.3"⟩,
      ⟨some "WebKit", some "605.1"⟩⟩ "Mobile Safari" rfl (by decide) rfl
  rw [h]; decide

/-! ## Claim C8 — unresolvable UA sentinel, no match, no crash -/

/-- A non-empty family never lower-compares equal to the empty one. -/
lemma jsToLower_empty_beq {f : String} (h : f ≠ "") :
    (jsToLower f == jsToLower "") = false := by
  cases hq : jsToLower f == jsToLower "" with
  | false => rfl
  | true =>
    exfalso
    have heq : jsToLower f = jsToLower "" := eq_of_beq hq
    apply h
    cases f with
    | mk d =>
      have hdata : d.map Char.toLower = [] := congrArg String.data heq
      have hd : d = [] := by
        cases d with
        | nil => rfl
        | cons a l => simp at hdata
      rw [hd]

/-- Against the empty-family sentinel, a target list of non-empty
families can never produce a family match, so the search returns
false without ever running a comparison. -/
lemma matchesTargets_empty_family (targets : List BrowserTarget) (mo : MergedOptions)
    (h : ∀ t ∈ targets, t.family ≠ "") :
    matchesTargets targets ⟨"", "0.0.0"⟩ mo = some false := by
  induction targets with
  | nil => rfl
  | cons hd tl ih =>
    have hb : (jsToLower hd.family == jsToLower "") = false :=
      jsToLower_empty_beq (h hd (List.mem_cons_self hd tl))
    simp [matchesTargets, hb, ih (fun t ht => h t (List.mem_cons_of_mem _ ht))]

/-- C8: a tokenizer report with no (or an empty) browser name makes
the resolver return the sentinel, and the sentinel's empty family
matches no target with a non-empty family, so the engine answers
false rather than crashing; the model functions are total. -/
theorem c8_sentinel_no_match :
    (∀ pu : ParsedUA, jsTruthy pu.browser.name = false →
      resolveUserAgent pu = ⟨"", "0.0.0"⟩) ∧
    (∀ (pu : ParsedUA) (targets : List BrowserTarget) (mo : MergedOptions),
      jsTruthy pu.browser.name = false →
      (∀ t ∈ targets, t.family ≠ "") →
      matchesTargets targets (resolveUserAgent pu) mo = some false) ∧
    (∀ (browsers : List String) (pu : ParsedUA) (opts : Opts)
        (parsed : List BrowserTarget),
      parseBrowsersList browsers = some parsed →
      jsTruthy pu.browser.name = false →
      (∀ t ∈ parsed, t.family ≠ "") →
      matchesUA browsers pu opts = some false) := by
  have hres : ∀ pu : ParsedUA, jsTruthy pu.browser.name = false →
      resolveUserAgent pu = ⟨"", "0.0.0"⟩ := by
    intro pu h; simp [resolveUserAgent, h]
  refine ⟨hres, ?_, ?_⟩
  · intro pu targets mo h ht
    rw [hres pu h]
    exact matchesTargets_empty_family targets mo ht
  · intro browsers pu opts parsed hp h ht
    unfold matchesUA
    rw [hp, hres pu h]
    exact matchesTargets_empty_family parsed (mergeOptions opts) ht

/-- Witness for C8: an empty tokenizer report against a Chrome
target. -/
theorem c8_sentinel_no_match_witness :
    resolveUserAgent ⟨⟨none, none⟩, ⟨none, none⟩, ⟨none, none⟩⟩ = ⟨"", "0.0.0"⟩ ∧
    matchesUA ["Chrome 100"] ⟨⟨none, none⟩, ⟨none, none⟩, ⟨none, none⟩⟩
      ⟨none, none, none⟩ = some false :=
  ⟨c8_sentinel_no_match.1 _ (by decide),
   c8_sentinel_no_match.2.2 ["Chrome 100"] ⟨⟨none, none⟩, ⟨none, none⟩, ⟨none, none⟩⟩
     ⟨none, none, none⟩ [⟨"Chrome", "100"⟩] (by decide) (by decide) (by decide)⟩

/-! ## Claim C10 — no iOS substitution off iOS -/

/-- A name that contains "Safari" cannot equal a name that does not. -/
lemma beq_false_of_includes (n X : String) (hn : jsIncludes n "Safari" = true)
    (hX : jsIncludes X "Safari" = false) : (n == X) = false := by
  cases hq : n == X with
  | false => rfl
  | true =>
    exfalso
    have he : n = X := eq_of_beq hq
    rw [he, hX] at hn
    cases hn

/-- C10: a Safari-named browser off iOS that triggers no
family-specific override resolves to the raw reported name with the
normalized browser version — the iOS substitution never fires. -/
theorem c10_safari_off_ios (pu : ParsedUA) (n : String)
    (hn : pu.browser.name = some n) (hne : n ≠ "")
    (hsaf : jsIncludes n "Safari" = true)
    (hos : pu.os.name ≠ some "iOS")
    (hcm : jsIncludes n "Chrome Mobile" = false)
    (hcw : jsIncludes n "Chrome WebView" = false)
    (hcc : jsIncludes n "Chromium" = false)
    (hch : jsIncludes n "Chrome Headless" = false)
    (hblink : ¬(pu.engine.name = some "Blink" ∧ pu.os.name = some "Android")) :
    resolveUserAgent pu = ⟨n, getNormalizedVersionOpt pu.browser.version⟩ := by
  have ht : jsTruthy (some n) = true := by
    simp [jsTruthy, hne]
  have hos' : (pu.os.name == some "iOS") = false := by
    cases hq : pu.os.name == some "iOS" with
    | false => rfl
    | true => exact absurd (eq_of_beq hq) hos
  have h1 : (n == "Samsung Browser") = false :=
    beq_false_of_includes n _ hsaf (by decide)
  have h2 : (n == "Firefox Mobile") = false :=
    beq_false_of_includes n _ hsaf (by decide)
  have h3 : (n == "IE") = false :=
    beq_false_of_includes n _ hsaf (by decide)
  have h4 : (n == "IEMobile") = false :=
    beq_false_of_includes n _ hsaf (by decide)
  have h5 : (n == "Android Browser") = false :=
    beq_false_of_includes n _ hsaf (by decide)
  have hbl : (pu.engine.name == some "Blink" && pu.os.name == some "Android") = false := by
    cases hq1 : pu.engine.name == some "Blink" with
    | false => simp [hq1]
    | true =>
      cases hq2 : pu.os.name == some "Android" with
      | false => simp [hq1, hq2]
      | true => exact absurd ⟨eq_of_beq hq1, eq_of_beq hq2⟩ hblink
  simp [resolveUserAgent, ht, hn, hos', hcm, hcw, hcc, hch, h1, h2, h3, h4, h5, hbl]

/-- Witness for C10: desktop Safari on Mac OS keeps family "Safari"
and its own version. -/
theorem c10_safari_off_ios_witness :
    resolveUserAgent ⟨⟨some "Safari", some "14.1.2"⟩, ⟨some "Mac OS", some "10.15.7"⟩,
      ⟨some "WebKit", some "605.1.15"⟩⟩ = ⟨"Safari", "14.1.2"⟩ := by
  have h := c10_safari_off_ios
    ⟨⟨some "Safari", some "14.1.2"⟩, ⟨some "Mac OS", some "10.15.7"⟩,
      ⟨some "WebKit", some "605.1.15"⟩⟩ "Safari" rfl (by decide) (by decide)
    (by decide) (by decide) (by decide) (by decide) (by decide) (by decide)
  rw [h]; decide

/-! ## Claim C4 — match is an any-target disjunction, case-insensitive -/

/-- One unfolding step of the target search. -/
lemma matchesTargets_cons (hd : BrowserTarget) (tl : List BrowserTarget)
    (r : ResolvedBrowser) (mo : MergedOptions) :
    matchesTargets (hd :: tl) r mo =
      if jsToLower hd.family == jsToLower r.family then
        match compareBrowserSemvers r.version hd.version mo with
        | none => none
        | some true => some true
        | some false => matchesTargets tl r mo
      else matchesTargets tl r mo := rfl

/-- When no listed comparison throws, the search answers true exactly
when some target matches family (case-insensitively) and version. -/
lemma matchesTargets_true_iff (l : List BrowserTarget) (r : ResolvedBrowser)
    (mo : MergedOptions)
    (hnt : ∀ t ∈ l, compareBrowserSemvers r.version t.version mo ≠ none) :
    (matchesTargets l r mo = some true ↔
      ∃ t ∈ l, jsToLower t.family = jsToLower r.family ∧
        compareBrowserSemvers r.version t.version mo = some true) := by
  induction l with
  | nil => simp [matchesTargets]
  | cons hd tl ih =>
    have ihtl := ih (fun t ht => hnt t (List.mem_cons_of_mem _ ht))
    cases hfam : jsToLower hd.family == jsToLower r.family with
    | false =>
      have hne : jsToLower hd.family ≠ jsToLower r.family := by
        intro hc; rw [hc] at hfam; simp at hfam
      rw [matchesTargets_cons, if_neg (by simp [hfam]), ihtl]
      constructor
      · rintro ⟨t, ht, hfe, hcv⟩
        exact ⟨t, List.mem_cons_of_mem _ ht, hfe, hcv⟩
      · rintro ⟨t, ht, hfe, hcv⟩
        rcases List.mem_cons.mp ht with rfl | ht'
        · exact absurd hfe hne
        · exact ⟨t, ht', hfe, hcv⟩
    | true =>
      have heqf : jsToLower hd.family = jsToLower r.family := eq_of_beq hfam
      rw [matchesTargets_cons, if_pos (by simp [hfam])]
      cases hcmp : compareBrowserSemvers r.version hd.version mo with
      | none => exact absurd hcmp (hnt hd (List.mem_cons_self hd tl))
      | some bres =>
        cases bres with
        | true =>
          simp only [hcmp]
          constructor
          · intro _; exact ⟨hd, List.mem_cons_self hd tl, heqf, hcmp⟩
          · intro _; trivial
        | false =>
          simp only [hcmp]
          rw [ihtl]
          constructor
          · rintro ⟨t, ht, hfe, hcv⟩
            exact ⟨t, List.mem_cons_of_mem _ ht, hfe, hcv⟩
          · rintro ⟨t, ht, hfe, hcv⟩
            rcases List.mem_cons.mp ht with rfl | ht'
            · rw [hcmp] at hcv; cases hcv
            · exact ⟨t, ht', hfe, hcv⟩

/-- Replacing the resolved family and every target family by
case-variants (and keeping the versions) leaves the search's result
unchanged, including its throw behavior. -/
lemma matchesTargets_case_invariant (mo : MergedOptions)
    (l l2 : List BrowserTarget) (r r2 : ResolvedBrowser)
    (hf : jsToLower r2.family = jsToLower r.family) (hv : r2.version = r.version)
    (hall : List.Forall₂ (fun t1 t2 => jsToLower t1.family = jsToLower t2.family ∧
      t1.version = t2.version) l l2) :
    matchesTargets l2 r2 mo = matchesTargets l r mo := by
  induction hall with
  | nil => rfl
  | cons h1 h2 ih =>
    rename_i a b l1 l2
    rw [matchesTargets_cons, matchesTargets_cons]
    have hc : (jsToLower b.family == jsToLower r2.family) =
        (jsToLower a.family == jsToLower r.family) := by
      rw [← h1.1, hf]
    rw [hc, hv, ← h1.2, ih]

/-- C4: the engine answers true exactly when some parsed target
matches the resolved browser — family compared case-insensitively,
version under the comparison policy with the resolved version as
candidate — provided no listed comparison throws; and the answer is
invariant under changing the letter case of the resolved family or of
any target family. -/
theorem c4_any_target (browsers : List String) (parsedUA : ParsedUA) (opts : Opts)
    (parsed : List BrowserTarget)
    (hp : parseBrowsersList browsers = some parsed) :
    ((∀ t ∈ parsed, compareBrowserSemvers (resolveUserAgent parsedUA).version t.version
        (mergeOptions opts) ≠ none) →
      (matchesUA browsers parsedUA opts = some true ↔
        ∃ t ∈ parsed, jsToLower t.family = jsToLower (resolveUserAgent parsedUA).family ∧
          compareBrowserSemvers (resolveUserAgent parsedUA).version t.version
            (mergeOptions opts) = some true)) ∧
    (∀ (parsed2 : List BrowserTarget) (fam2 : String),
      jsToLower fam2 = jsToLower (resolveUserAgent parsedUA).family →
      List.Forall₂ (fun t1 t2 => jsToLower t1.family = jsToLower t2.family ∧
        t1.version = t2.version) parsed parsed2 →
      matchesTargets parsed2 ⟨fam2, (resolveUserAgent parsedUA).version⟩ (mergeOptions opts)
        = matchesUA browsers parsedUA opts) := by
  have hM : matchesUA browsers parsedUA opts =
      matchesTargets parsed (resolveUserAgent parsedUA) (mergeOptions opts) := by
    unfold matchesUA; rw [hp]
  constructor
  · intro hnt
    rw [hM]
    exact matchesTargets_true_iff parsed _ _ hnt
  · intro parsed2 fam2 hf hall
    rw [hM]
    exact matchesTargets_case_invariant (mergeOptions opts) parsed parsed2
      (resolveUserAgent parsedUA) ⟨fam2, (resolveUserAgent parsedUA).version⟩ hf rfl hall

/-- Witness for C4: an aliased and_chr target matches a Chrome UA
report under default options. -/
theorem c4_any_target_witness :
    matchesUA ["and_chr 100"]
      ⟨⟨some "Chrome", some "100.0.5"⟩, ⟨some "Windows", some "10"⟩, ⟨none, none⟩⟩
      ⟨none, none, none⟩ = some true :=
  ((c4_any_target ["and_chr 100"]
      ⟨⟨some "Chrome", some "100.0.5"⟩, ⟨some "Windows", some "10"⟩, ⟨none, none⟩⟩
      ⟨none, none, none⟩ [⟨"Chrome", "100"⟩] (by decide)).1
    (by decide)).mpr ⟨⟨"Chrome", "100"⟩, by decide, by decide, by decide⟩

end BrowserslistUA
